import Mathlib

/-!
Verification of the heimdallr coordinator ("daemon") and client library against
its specification.  The Rust sources are shallowly embedded: TCP streams and
socket addresses become opaque natural-number identifiers, `Vec<u8>` payloads
become `List Nat`, and each Rust method becomes a pure Lean function on an
explicit state record.  Side effects that matter for the claims (writing the
protected mutex value to the owner's control connection) are modelled as an
explicit event list returned next to the successor state.
-/

namespace Heimdallr

/-- Opaque identifier standing in for a `TcpStream` handle. -/
abbrev TcpStream := Nat

/-- Opaque identifier standing in for a `SocketAddr`. -/
abbrev Addr := Nat

/-- Serialized payload bytes (`Vec<u8>` in the source). -/
abbrev Bytes := List Nat

/-- Coordinator-side state of one named distributed mutex
(struct `HeimdallrDaemonMutex`, heimdallrd/src/main.rs). -/
structure HeimdallrDaemonMutex where
  name : String
  streams : List (Option TcpStream)
  constructed : Bool
  data : Bytes
  access_queue : List Nat
  locked : Bool
  current_owner : Option Nat
deriving Repr, DecidableEq

/-- Observable effect of `send_data`: the serialized value written to the
current owner's control connection (`None` receiver models the logged
"no current owner" error path). -/
structure SendEvent where
  receiver : Option Nat
  payload : Bytes
deriving Repr, DecidableEq

namespace HeimdallrDaemonMutex

/-- Rust `HeimdallrDaemonMutex::new`: fresh state with one empty stream slot per
rank and the creating packet's `start_data` as initial value. -/
def new (name : String) (size : Nat) (start_data : Bytes) : HeimdallrDaemonMutex :=
  { name := name
    streams := List.replicate size none
    constructed := false
    data := start_data
    access_queue := []
    locked := false
    current_owner := none }

/-- Rust `HeimdallrDaemonMutex::register_client`: store the rank's control
connection and recompute `constructed` as "no slot is still empty". -/
def register_client (m : HeimdallrDaemonMutex) (id : Nat) (stream : TcpStream) :
    HeimdallrDaemonMutex :=
  let streams := m.streams.set id (some stream)
  { m with streams := streams, constructed := !(streams.any fun x => x.isNone) }

/-- Rust `HeimdallrDaemonMutex::send_data`: write the canonical value to the
current owner's connection.  Pure model: emit one event. -/
def send_data (m : HeimdallrDaemonMutex) : List SendEvent :=
  [⟨m.current_owner, m.data⟩]

/-- Rust `HeimdallrDaemonMutex::grant_next_lock`: when unlocked and the queue is
non-empty, pop the queue head as the new owner, lock, and send the value. -/
def grant_next_lock (m : HeimdallrDaemonMutex) : HeimdallrDaemonMutex × List SendEvent :=
  if (!m.locked) && (!m.access_queue.isEmpty) then
    let m' := { m with current_owner := m.access_queue.head?,
                       access_queue := m.access_queue.tail,
                       locked := true }
    (m', send_data m')
  else
    (m, [])

/-- Rust `HeimdallrDaemonMutex::access_request`: enqueue the requesting rank and
try to grant. -/
def access_request (m : HeimdallrDaemonMutex) (client_id : Nat) :
    HeimdallrDaemonMutex × List SendEvent :=
  grant_next_lock { m with access_queue := m.access_queue ++ [client_id] }

/-- Rust `HeimdallrDaemonMutex::release_request`: when locked, unlock, clear the
owner, and grant the next waiter; otherwise only log an error. -/
def release_request (m : HeimdallrDaemonMutex) : HeimdallrDaemonMutex × List SendEvent :=
  if m.locked then
    grant_next_lock { m with locked := false, current_owner := none }
  else
    (m, [])

/-- The `MutexWriteAndRelease` arm of `handle_client`: overwrite the canonical
data with the packet's data, then run `release_request`. -/
def write_and_release (m : HeimdallrDaemonMutex) (d : Bytes) :
    HeimdallrDaemonMutex × List SendEvent :=
  release_request { m with data := d }

end HeimdallrDaemonMutex

/-- One coordinator-side operation on a single mutex, as dispatched by
`handle_client` and the construction path. -/
inductive MutexOp where
  | register (id : Nat) (stream : TcpStream)
  | access (client_id : Nat)
  | release
  | writeRelease (d : Bytes)
deriving Repr, DecidableEq

/-- Apply one operation to a mutex state. -/
def applyOp (m : HeimdallrDaemonMutex) : MutexOp → HeimdallrDaemonMutex × List SendEvent
  | .register id s => (m.register_client id s, [])
  | .access r => m.access_request r
  | .release => m.release_request
  | .writeRelease d => m.write_and_release d

/-- Run a sequence of operations, accumulating the emitted events. -/
def runOps (m : HeimdallrDaemonMutex) : List MutexOp → HeimdallrDaemonMutex × List SendEvent
  | [] => (m, [])
  | op :: ops =>
    let r1 := applyOp m op
    let r2 := runOps r1.1 ops
    (r2.1, r1.2 ++ r2.2)

/-- Ranks that were granted the lock, in emission order. -/
def grantRanks (evs : List SendEvent) : List Nat :=
  evs.filterMap (fun e => e.receiver)

/-- Arrival order of `MutexLockReq` ranks in an operation sequence. -/
def arrivals : List MutexOp → List Nat
  | [] => []
  | .access r :: ops => r :: arrivals ops
  | _ :: ops => arrivals ops

/-- An operation that is an `access_request` or a plain `release_request`. -/
def MutexOp.isLockOp : MutexOp → Bool
  | .access _ => true
  | .release => true
  | _ => false

/-- Coordinator-side state of the job barrier
(struct `DaemonBarrier`, heimdallrd/src/main.rs). -/
structure DaemonBarrier where
  size : Nat
  streams : List (Option TcpStream)
  finished : Bool
deriving Repr, DecidableEq

namespace DaemonBarrier

/-- Rust `DaemonBarrier::new`: `size` empty stream slots, not finished. -/
def new (size : Nat) : DaemonBarrier :=
  { size := size, streams := List.replicate size none, finished := false }

/-- Rust `DaemonBarrier::register_client`: store the rank's connection and
recompute `finished` as "no slot is still empty". -/
def register_client (b : DaemonBarrier) (id : Nat) (stream : TcpStream) : DaemonBarrier :=
  let streams := b.streams.set id (some stream)
  { b with streams := streams, finished := !(streams.any fun x => x.isNone) }

/-- Rust `DaemonBarrier::reset`: replace the slots by a fresh all-empty vector and
clear `finished`; `size` is untouched. -/
def reset (b : DaemonBarrier) : DaemonBarrier :=
  { b with streams := List.replicate b.size none, finished := false }

end DaemonBarrier

/-- Wire content of a `ClientRegistration` packet. -/
structure ClientRegistrationPkt where
  job : String
  size : Nat
  listener_addr : Addr
deriving Repr, DecidableEq

/-- Reply sent to a registered client: its rank and all peer-listener
addresses (`ClientRegistrationReplyPkt`). -/
structure ClientRegistrationReplyPkt where
  id : Nat
  client_listeners : List Addr
deriving Repr, DecidableEq

/-- Packet kinds the registration loop of `run` can see. -/
inductive RegPkt where
  | clientRegistration (p : ClientRegistrationPkt)
  | other
deriving Repr, DecidableEq

/-- One turn of `daemon.client_listener.incoming()`: a stream bearing a
packet, or a connection error. -/
inductive IncomingEvent where
  | ok (stream : TcpStream) (pkt : RegPkt)
  | err
deriving Repr, DecidableEq

/-- Accumulator of the registration loop in `run`
(heimdallrd/src/main.rs, local variables of `run`). -/
structure RegState where
  job_name : String
  job_size : Nat
  clients : List TcpStream
  client_listeners : List Addr
deriving Repr, DecidableEq

/-- Initial state of the registration loop. -/
def regInit : RegState :=
  { job_name := "", job_size := 0, clients := [], client_listeners := [] }

/-- Body of the registration loop: a registration packet seals name/size on
first arrival, then the stream and advertised address are appended; other
packets and connection errors only log. -/
def regStep (st : RegState) (ev : IncomingEvent) : RegState :=
  match ev with
  | .ok s (.clientRegistration p) =>
    let st1 := if st.job_name.isEmpty then
                 { st with job_name := p.job, job_size := p.size }
               else st
    { st1 with clients := st1.clients ++ [s],
               client_listeners := st1.client_listeners ++ [p.listener_addr] }
  | .ok _ .other => st
  | .err => st

/-- The registration loop of `run`: process incoming events until the number
of collected clients equals the job size. -/
def regLoop (st : RegState) : List IncomingEvent → RegState
  | [] => st
  | ev :: rest =>
    let st' := regStep st ev
    if st'.clients.length = st'.job_size then st' else regLoop st' rest

/-- The reply loop of `run`: `for id in 0..clients.len()` pops the front
client and sends it `ClientRegistrationReplyPkt::new(id, &client_listeners)`. -/
def replyLoop : List TcpStream → Nat → List Addr →
    List (TcpStream × ClientRegistrationReplyPkt)
  | [], _, _ => []
  | c :: cs, id, ls => (c, ⟨id, ls⟩) :: replyLoop cs (id + 1) ls

/-- Replies produced after the registration loop finished. -/
def sendReplies (st : RegState) : List (TcpStream × ClientRegistrationReplyPkt) :=
  replyLoop st.clients 0 st.client_listeners

/-- The join loop at the end of `run`:
`for t in job_threads { t.join().unwrap(); println!(...); process::exit(0); }`.
The result records which handles were joined before the process ended. -/
inductive DaemonExit where
  | exited (joined : List Nat) (code : Nat)
  | returnedOk (joined : List Nat)
deriving Repr, DecidableEq

/-- Model of the final loop of `run` over the spawned handler threads: the
loop body unconditionally calls `process::exit(0)` after its first join. -/
def joinThreads : List Nat → DaemonExit
  | [] => .returnedOk []
  | t :: _ => .exited [t] 0

/-- Content of a `MutexCreation` packet together with the handling thread's
control-connection clone passed to `register_client`. -/
structure MutexCreationPkt where
  name : String
  client_id : Nat
  start_data : Bytes
  stream : TcpStream
deriving Repr, DecidableEq

/-- The coordinator's per-job mutex map (`HashMap<String, HeimdallrDaemonMutex>`),
modelled as an association list with unique keys. -/
abbrev MutexMap := List (String × HeimdallrDaemonMutex)

/-- Lookup in the mutex map. -/
def lookupMx : MutexMap → String → Option HeimdallrDaemonMutex
  | [], _ => none
  | (k, v) :: rest, key => if k = key then some v else lookupMx rest key

/-- Insert-or-replace in the mutex map. -/
def insertMx : MutexMap → String → HeimdallrDaemonMutex → MutexMap
  | [], key, v => [(key, v)]
  | (k, w) :: rest, key, v =>
    if k = key then (key, v) :: rest else (k, w) :: insertMx rest key v

/-- The `MutexCreation` arm of `handle_client`:
`mutexes.entry(name).or_insert(HeimdallrDaemonMutex::new(name, size, start_data))`
followed by `mutex.register_client(client_id, stream)`. -/
def handleMutexCreation (size : Nat) (map : MutexMap) (pkt : MutexCreationPkt) : MutexMap :=
  let m := (lookupMx map pkt.name).getD
    (HeimdallrDaemonMutex.new pkt.name size pkt.start_data)
  insertMx map pkt.name (m.register_client pkt.client_id pkt.stream)

/-- Process a sequence of `MutexCreation` packets starting from an empty map. -/
def runCreations (size : Nat) (pkts : List MutexCreationPkt) : MutexMap :=
  pkts.foldl (handleMutexCreation size) []

/-- The client arguments collected by the flag loop of `HeimdallrClient::init`
(heimdallr/src/lib.rs). -/
structure ParsedClientArgs where
  job : String
  partition : String
  size : Nat
  node : String
  cmd_args : List String
  netInterface : String
deriving Repr, DecidableEq

/-- Result of the flag loop: normal completion, an early `Err` return when a
flag's value is missing, or the panic of `s.parse::<u32>().unwrap()`. -/
inductive ParseOutcome where
  | ok (a : ParsedClientArgs)
  | argErr (msg : String)
  | parsePanic
deriving Repr, DecidableEq

/-- Accumulate decimal digits; any non-digit character fails the parse. -/
def parseDigits : List Char → Nat → Option Nat
  | [], acc => some acc
  | c :: cs, acc =>
    if c.isDigit then parseDigits cs (acc * 10 + (c.toNat - 48)) else none

/-- Model of Rust `str::parse::<u32>` on a decimal string (the optional
leading sign is not modelled): fails on empty or non-digit input; the range
check against `2 ^ 32` is done by the caller. -/
def parseU32 (s : String) : Option Nat :=
  match s.data with
  | [] => none
  | l => parseDigits l 0

/-- The `while let Some(arg) = args.next()` loop of `HeimdallrClient::init`. -/
def parseClientLoop : List String → ParsedClientArgs → ParseOutcome
  | [], st => .ok st
  | arg :: rest, st =>
    if arg = "-p" ∨ arg = "--partition" then
      match rest with
      | [] => .argErr "Error in partition argument."
      | p :: rest' => parseClientLoop rest' { st with partition := p }
    else if arg = "-j" ∨ arg = "--jobs" then
      match rest with
      | [] => .argErr "Error in setting job count."
      | s :: rest' =>
        match parseU32 s with
        | some n => if n < 2 ^ 32 then parseClientLoop rest' { st with size := n }
                    else .parsePanic
        | none => .parsePanic
    else if arg = "-n" ∨ arg = "--node" then
      match rest with
      | [] => .argErr "Error in setting node."
      | n :: rest' => parseClientLoop rest' { st with node := n }
    else if arg = "--job-name" then
      match rest with
      | [] => .argErr "Error in setting job-name."
      | jn :: rest' => parseClientLoop rest' { st with job := jn }
    else if arg = "--interface" then
      match rest with
      | [] => .argErr "No valid network interface name given."
      | i :: rest' => parseClientLoop rest' { st with netInterface := i }
    else if arg = "--args" then
      .ok { st with cmd_args := rest }
    else
      parseClientLoop rest st

/-- Rust `HeimdallrClient::init` up to the required-arguments check: the first
argument (the program path) becomes the default job name, then the flag loop
runs. -/
def parseClientArgs (argv : List String) : ParseOutcome :=
  parseClientLoop argv.tail
    { job := argv.headD "", partition := "", size := 0, node := "",
      cmd_args := [], netInterface := "" }

/-- Outcome of `HeimdallrClient::init` up to (and including) the
required-arguments check, before any file or network access. -/
inductive InitOutcome where
  | exit1
  | proceeds (a : ParsedClientArgs)
  | argErr (msg : String)
  | panicked
deriving Repr, DecidableEq

/-- The check `if partition.is_empty() | node.is_empty() | (size == 0)` of
`HeimdallrClient::init`: print a diagnostic and `process::exit(1)`, else
proceed with the parsed arguments. -/
def clientInitCheck (argv : List String) : InitOutcome :=
  match parseClientArgs argv with
  | .ok st =>
    if st.partition.isEmpty || st.node.isEmpty || (st.size == 0) then .exit1
    else .proceeds st
  | .argErr m => .argErr m
  | .parsePanic => .panicked

/-- Config base directory of the coordinator
(`Daemon::create_partition_file`): `XDG_CONFIG_HOME` when the variable is
set, otherwise `$HOME/.config`. -/
def daemonConfigHome (xdg_config_home : Option String) (home : String) : String :=
  match xdg_config_home with
  | some path => path
  | none => home ++ "/.config"

/-- Path of the descriptor file written by the coordinator:
`<config_home>/heimdallr/<partition>/<name>`. -/
def daemonPartitionFilePath (xdg_config_home : Option String)
    (home partition name : String) : String :=
  daemonConfigHome xdg_config_home home ++ "/heimdallr/" ++ partition ++ "/" ++ name

/-- Path of the descriptor file read by `HeimdallrClient::init`:
`format!("\x7b\x7d/.config/heimdallr/\x7b\x7d/\x7b\x7d", home, partition, node)` —
always under `$HOME/.config`, ignoring `XDG_CONFIG_HOME`. -/
def clientConfigFilePath (home partition node : String) : String :=
  home ++ "/.config/heimdallr/" ++ partition ++ "/" ++ node

/-- Lookup after inserting the same key yields the inserted value. -/
theorem lookupMx_insertMx_self (map : MutexMap) (k : String) (v : HeimdallrDaemonMutex) :
    lookupMx (insertMx map k v) k = some v := by
  induction map with
  | nil => simp [insertMx, lookupMx]
  | cons hd tl ih =>
    obtain ⟨k', w⟩ := hd
    by_cases h : k' = k
    · simp [insertMx, lookupMx, h]
    · simp [insertMx, lookupMx, h, ih]

/-- Lookup at another key is unaffected by an insert. -/
theorem lookupMx_insertMx_ne (map : MutexMap) (k key : String) (v : HeimdallrDaemonMutex)
    (h : k ≠ key) :
    lookupMx (insertMx map k v) key = lookupMx map key := by
  induction map with
  | nil => simp [insertMx, lookupMx, h]
  | cons hd tl ih =>
    obtain ⟨k', w⟩ := hd
    by_cases h' : k' = k
    · subst h'
      simp [insertMx, lookupMx, h]
    · by_cases h'' : k' = key
      · have hkk : ¬(key = k) := fun hh => h hh.symm
        simp [insertMx, lookupMx, h', h'', hkk]
      · simp [insertMx, lookupMx, h', h'', ih]

/-- Method `register_client` never touches the stored mutex data. -/
theorem register_client_data (m : HeimdallrDaemonMutex) (id : Nat) (s : TcpStream) :
    (m.register_client id s).data = m.data := rfl

/-- Folding `MutexCreation` packets over any map: the stored data at a name is
the data already present, or else the first arriving packet's `start_data`. -/
theorem foldCreations_data_lookup (size : Nat) :
    ∀ (pkts : List MutexCreationPkt) (map : MutexMap) (name : String),
      (lookupMx (pkts.foldl (handleMutexCreation size) map) name).map (fun m => m.data)
      = ((lookupMx map name).map (fun m => m.data)).or
          ((pkts.find? (fun p => p.name == name)).map (fun p => p.start_data)) := by
  intro pkts
  induction pkts with
  | nil =>
    intro map name
    cases hm : lookupMx map name <;> simp [hm, Option.or]
  | cons p pkts ih =>
    intro map name
    have hfold : ((p :: pkts).foldl (handleMutexCreation size) map)
        = pkts.foldl (handleMutexCreation size) (handleMutexCreation size map p) := rfl
    rw [hfold, ih]
    by_cases hpn : p.name = name
    · subst hpn
      have hself : lookupMx (handleMutexCreation size map p) p.name
          = some (((lookupMx map p.name).getD
              (HeimdallrDaemonMutex.new p.name size p.start_data)).register_client
                p.client_id p.stream) := by
        simp [handleMutexCreation, lookupMx_insertMx_self]
      rw [hself]
      cases hm : lookupMx map p.name <;>
        simp [hm, Option.or, register_client_data, List.find?, HeimdallrDaemonMutex.new]
    · have hne : lookupMx (handleMutexCreation size map p) name = lookupMx map name := by
        simp only [handleMutexCreation]
        exact lookupMx_insertMx_ne _ _ _ _ hpn
      rw [hne]
      have hbeq : (p.name == name) = false := by
        simp [hpn]
      have hfind : (p :: pkts).find? (fun q => q.name == name)
          = pkts.find? (fun q => q.name == name) := by
        simp [List.find?, hbeq]
      rw [hfind]

/-- C3: starting from an empty mutex map, after any sequence of
`MutexCreation` packets the stored data of a name is exactly the `start_data`
of the first packet bearing that name; later packets' `start_data` are
discarded. -/
theorem c3_first_creation_start_data (size : Nat) (pkts : List MutexCreationPkt)
    (name : String) :
    (lookupMx (runCreations size pkts) name).map (fun m => m.data)
    = (pkts.find? (fun p => p.name == name)).map (fun p => p.start_data) := by
  have h := foldCreations_data_lookup size pkts [] name
  simpa [runCreations, lookupMx, Option.or] using h

/-- A slot update with a present stream preserves "no slot is empty". -/
theorem any_isNone_set_some {α : Type} (l : List (Option α)) (i : Nat) (s : α)
    (h : l.any (fun x => x.isNone) = false) :
    (l.set i (some s)).any (fun x => x.isNone) = false := by
  rw [List.any_eq_false] at h ⊢
  intro x hx
  rcases List.mem_or_eq_of_mem_set hx with h' | h'
  · exact h x h'
  · subst h'
    simp

/-- Invariant tying the `constructed` flag to the stream slots. -/
def constructedInv (m : HeimdallrDaemonMutex) : Prop :=
  m.constructed = true → m.streams.any (fun x => x.isNone) = false

/-- Method `grant_next_lock` touches neither the stream slots nor `constructed`. -/
theorem grant_next_lock_frame (m : HeimdallrDaemonMutex) :
    (m.grant_next_lock).1.streams = m.streams ∧
    (m.grant_next_lock).1.constructed = m.constructed := by
  rw [HeimdallrDaemonMutex.grant_next_lock]
  split <;> exact ⟨rfl, rfl⟩

/-- Method `access_request` touches neither the stream slots nor `constructed`. -/
theorem access_request_frame (m : HeimdallrDaemonMutex) (r : Nat) :
    (m.access_request r).1.streams = m.streams ∧
    (m.access_request r).1.constructed = m.constructed := by
  have h := grant_next_lock_frame { m with access_queue := m.access_queue ++ [r] }
  simpa [HeimdallrDaemonMutex.access_request] using h

/-- Method `release_request` touches neither the stream slots nor `constructed`. -/
theorem release_request_frame (m : HeimdallrDaemonMutex) :
    (m.release_request).1.streams = m.streams ∧
    (m.release_request).1.constructed = m.constructed := by
  rw [HeimdallrDaemonMutex.release_request]
  split
  · have h := grant_next_lock_frame { m with locked := false, current_owner := none }
    simpa using h
  · exact ⟨rfl, rfl⟩

/-- Method `write_and_release` touches neither the stream slots nor `constructed`. -/
theorem write_and_release_frame (m : HeimdallrDaemonMutex) (d : Bytes) :
    (m.write_and_release d).1.streams = m.streams ∧
    (m.write_and_release d).1.constructed = m.constructed := by
  have h := release_request_frame { m with data := d }
  simpa [HeimdallrDaemonMutex.write_and_release] using h

/-- A step that changes neither the stream slots nor `constructed` preserves
the constructed invariant and the flag's truth. -/
theorem constructed_frame_step (m m' : HeimdallrDaemonMutex)
    (h1 : m'.streams = m.streams) (h2 : m'.constructed = m.constructed)
    (h : constructedInv m) :
    constructedInv m' ∧ (m.constructed = true → m'.constructed = true) := by
  constructor
  · intro hc
    rw [h1]
    refine h ?_
    rw [← h2]
    exact hc
  · intro hc
    rw [h2]
    exact hc

/-- One operation preserves the constructed invariant, and never clears a
`constructed` flag that is already set. -/
theorem applyOp_constructed (m : HeimdallrDaemonMutex) (op : MutexOp)
    (h : constructedInv m) :
    constructedInv (applyOp m op).1 ∧
    (m.constructed = true → (applyOp m op).1.constructed = true) := by
  cases op with
  | register id s =>
    constructor
    · intro hc
      have hcon : (applyOp m (.register id s)).1.constructed
          = !((m.streams.set id (some s)).any fun x => x.isNone) := rfl
      rw [hcon, Bool.not_eq_true'] at hc
      exact hc
    · intro hc
      have hany := any_isNone_set_some m.streams id s (h hc)
      have hcon : (applyOp m (.register id s)).1.constructed
          = !((m.streams.set id (some s)).any fun x => x.isNone) := rfl
      rw [hcon, hany]
      rfl
  | access r =>
    exact constructed_frame_step m (m.access_request r).1
      (access_request_frame m r).1 (access_request_frame m r).2 h
  | release =>
    exact constructed_frame_step m (m.release_request).1
      (release_request_frame m).1 (release_request_frame m).2 h
  | writeRelease d =>
    exact constructed_frame_step m (m.write_and_release d).1
      (write_and_release_frame m d).1 (write_and_release_frame m d).2 h

/-- Running any operation sequence preserves the constructed invariant and
the truth of the `constructed` flag. -/
theorem runOps_constructed_mono :
    ∀ (ops : List MutexOp) (m : HeimdallrDaemonMutex), constructedInv m →
      constructedInv (runOps m ops).1 ∧
      (m.constructed = true → (runOps m ops).1.constructed = true) := by
  intro ops
  induction ops with
  | nil => exact fun m h => ⟨h, fun hc => hc⟩
  | cons op ops ih =>
    intro m h
    obtain ⟨h1, h2⟩ := applyOp_constructed m op h
    obtain ⟨h3, h4⟩ := ih (applyOp m op).1 h1
    exact ⟨h3, fun hc => h4 (h2 hc)⟩

/-- Runs compose over list append, with events concatenated. -/
theorem runOps_append (xs ys : List MutexOp) :
    ∀ m : HeimdallrDaemonMutex, runOps m (xs ++ ys)
      = ((runOps (runOps m xs).1 ys).1, (runOps m xs).2 ++ (runOps (runOps m xs).1 ys).2) := by
  induction xs with
  | nil => intro m; simp [runOps]
  | cons x xs ih =>
    intro m
    simp [runOps, ih (applyOp m x).1, List.append_assoc]

/-- C5: the `constructed` flag of a coordinator-side mutex is monotonic —
once a sequence of operations has made it true, no further sequence of
operations makes it false again. -/
theorem c5_constructed_monotonic (name : String) (size : Nat) (d0 : Bytes)
    (ops1 ops2 : List MutexOp)
    (h : (runOps (HeimdallrDaemonMutex.new name size d0) ops1).1.constructed = true) :
    (runOps (HeimdallrDaemonMutex.new name size d0) (ops1 ++ ops2)).1.constructed = true := by
  have hinv : constructedInv (HeimdallrDaemonMutex.new name size d0) := by
    intro hc
    exact absurd hc (by simp [HeimdallrDaemonMutex.new])
  have h1 := runOps_constructed_mono ops1 _ hinv
  have h2 := runOps_constructed_mono ops2 _ h1.1
  rw [runOps_append]
  exact h2.2 h

/-- Witness for C5: one registration fills the single slot of a size-1 mutex,
and the flag stays true across a later release. -/
theorem c5_constructed_monotonic_witness :
    (runOps (HeimdallrDaemonMutex.new "m" 1 []) [MutexOp.register 0 7]).1.constructed = true ∧
    (runOps (HeimdallrDaemonMutex.new "m" 1 [])
        ([MutexOp.register 0 7] ++ [MutexOp.release])).1.constructed = true :=
  ⟨by decide, c5_constructed_monotonic "m" 1 [] [MutexOp.register 0 7] [MutexOp.release]
    (by decide)⟩

/-- Unfolding lemma for `runOps` on a cons cell. -/
theorem runOps_cons (m : HeimdallrDaemonMutex) (op : MutexOp) (ops : List MutexOp) :
    runOps m (op :: ops)
      = ((runOps (applyOp m op).1 ops).1, (applyOp m op).2 ++ (runOps (applyOp m op).1 ops).2) :=
  rfl

/-- Granted ranks distribute over event concatenation. -/
theorem grantRanks_append (a b : List SendEvent) :
    grantRanks (a ++ b) = grantRanks a ++ grantRanks b := by
  simp [grantRanks]

/-- Basic well-formedness of the lock fields: `locked` mirrors the presence
of an owner, and a non-empty queue implies the lock is held. -/
def LockInv (m : HeimdallrDaemonMutex) : Prop :=
  m.locked = m.current_owner.isSome ∧ (m.access_queue ≠ [] → m.locked = true)

/-- Method `access_request` preserves the lock invariant, and the granted ranks
followed by the remaining queue extend the old queue by the new requester. -/
theorem access_request_spec (m : HeimdallrDaemonMutex) (r : Nat) (h : LockInv m) :
    LockInv (m.access_request r).1 ∧
    grantRanks (m.access_request r).2 ++ (m.access_request r).1.access_queue
      = m.access_queue ++ [r] := by
  cases hl : m.locked with
  | true =>
    have hres : m.access_request r
        = ({ m with access_queue := m.access_queue ++ [r] }, []) := by
      simp [HeimdallrDaemonMutex.access_request, HeimdallrDaemonMutex.grant_next_lock, hl]
    rw [hres]
    exact ⟨⟨hl ▸ h.1, fun _ => hl⟩, by simp [grantRanks]⟩
  | false =>
    have hq : m.access_queue = [] := by
      by_contra hne
      rw [h.2 hne] at hl
      exact Bool.noConfusion hl
    have hres : m.access_request r
        = ({ m with access_queue := [], locked := true, current_owner := some r },
           [⟨some r, m.data⟩]) := by
      simp [HeimdallrDaemonMutex.access_request, HeimdallrDaemonMutex.grant_next_lock,
        HeimdallrDaemonMutex.send_data, hl, hq]
    rw [hres]
    refine ⟨⟨rfl, fun _ => rfl⟩, ?_⟩
    simp [grantRanks, hq]

/-- Method `release_request` preserves the lock invariant, and the granted ranks
followed by the remaining queue reproduce the old queue. -/
theorem release_request_spec (m : HeimdallrDaemonMutex) (h : LockInv m) :
    LockInv (m.release_request).1 ∧
    grantRanks (m.release_request).2 ++ (m.release_request).1.access_queue
      = m.access_queue := by
  cases hl : m.locked with
  | false =>
    have hres : m.release_request = (m, []) := by
      simp [HeimdallrDaemonMutex.release_request, hl]
    rw [hres]
    exact ⟨h, by simp [grantRanks]⟩
  | true =>
    cases hq : m.access_queue with
    | nil =>
      have hres : m.release_request
          = ({ m with locked := false, current_owner := none }, []) := by
        simp [HeimdallrDaemonMutex.release_request, HeimdallrDaemonMutex.grant_next_lock, hl, hq]
      rw [hres]
      refine ⟨⟨rfl, fun hne => absurd hq hne⟩, ?_⟩
      simp [grantRanks, hq]
    | cons hd tlq =>
      have hres : m.release_request
          = ({ m with access_queue := tlq, locked := true, current_owner := some hd },
             [⟨some hd, m.data⟩]) := by
        simp [HeimdallrDaemonMutex.release_request, HeimdallrDaemonMutex.grant_next_lock,
          HeimdallrDaemonMutex.send_data, hl, hq]
      rw [hres]
      refine ⟨⟨rfl, fun _ => rfl⟩, ?_⟩
      simp [grantRanks, hq]

/-- Running a sequence of lock operations preserves the lock invariant, and
the granted ranks followed by the final queue equal the starting queue
followed by the arrival order of the requests. -/
theorem runOps_lock_spec :
    ∀ (ops : List MutexOp) (m : HeimdallrDaemonMutex),
      (∀ op ∈ ops, op.isLockOp = true) → LockInv m →
      LockInv (runOps m ops).1 ∧
      grantRanks (runOps m ops).2 ++ (runOps m ops).1.access_queue
        = m.access_queue ++ arrivals ops := by
  intro ops
  induction ops with
  | nil =>
    intro m _ h
    exact ⟨h, by simp [runOps, grantRanks, arrivals]⟩
  | cons op ops ih =>
    intro m hall h
    have hop : op.isLockOp = true := hall op (List.mem_cons_self op ops)
    have hops : ∀ o ∈ ops, o.isLockOp = true :=
      fun o ho => hall o (List.mem_cons_of_mem op ho)
    cases op with
    | register id s => exact absurd hop (by simp [MutexOp.isLockOp])
    | writeRelease d => exact absurd hop (by simp [MutexOp.isLockOp])
    | access r =>
      obtain ⟨hinv1, heq1⟩ := access_request_spec m r h
      obtain ⟨hinv2, heq2⟩ := ih (m.access_request r).1 hops hinv1
      rw [runOps_cons]
      dsimp only
      refine ⟨hinv2, ?_⟩
      show grantRanks ((m.access_request r).2 ++ (runOps (m.access_request r).1 ops).2)
          ++ (runOps (m.access_request r).1 ops).1.access_queue
        = m.access_queue ++ arrivals (.access r :: ops)
      rw [grantRanks_append, List.append_assoc, heq2, ← List.append_assoc, heq1,
        List.append_assoc]
      rfl
    | release =>
      obtain ⟨hinv1, heq1⟩ := release_request_spec m h
      obtain ⟨hinv2, heq2⟩ := ih (m.release_request).1 hops hinv1
      rw [runOps_cons]
      dsimp only
      refine ⟨hinv2, ?_⟩
      show grantRanks ((m.release_request).2 ++ (runOps (m.release_request).1 ops).2)
          ++ (runOps (m.release_request).1 ops).1.access_queue
        = m.access_queue ++ arrivals (.release :: ops)
      rw [grantRanks_append, List.append_assoc, heq2, ← List.append_assoc, heq1]
      rfl

/-- Enough `release_request`s drain the whole queue: each waiter still queued
is granted, in queue order. -/
theorem runOps_releases :
    ∀ (n : Nat) (m : HeimdallrDaemonMutex), LockInv m → m.access_queue.length ≤ n →
      grantRanks (runOps m (List.replicate n MutexOp.release)).2 = m.access_queue := by
  intro n
  induction n with
  | zero =>
    intro m h hlen
    have hq : m.access_queue = [] :=
      List.eq_nil_of_length_eq_zero (Nat.le_zero.mp hlen)
    simp [runOps, grantRanks, hq]
  | succ n ih =>
    intro m h hlen
    rw [List.replicate_succ, runOps_cons]
    dsimp only
    show grantRanks ((m.release_request).2
        ++ (runOps (m.release_request).1 (List.replicate n .release)).2) = m.access_queue
    cases hl : m.locked with
    | false =>
      have hq : m.access_queue = [] := by
        by_contra hne
        rw [h.2 hne] at hl
        exact Bool.noConfusion hl
      have hres : m.release_request = (m, []) := by
        simp [HeimdallrDaemonMutex.release_request, hl]
      rw [hres]
      dsimp only
      rw [grantRanks_append]
      have := ih m h (by simp [hq])
      simpa [grantRanks] using this
    | true =>
      cases hq : m.access_queue with
      | nil =>
        have hres : m.release_request
            = ({ m with locked := false, current_owner := none }, []) := by
          simp [HeimdallrDaemonMutex.release_request, HeimdallrDaemonMutex.grant_next_lock,
            hl, hq]
        rw [hres]
        dsimp only
        rw [grantRanks_append]
        have hinv1 : LockInv { m with locked := false, current_owner := none } :=
          ⟨rfl, fun hne => absurd hq hne⟩
        have := ih _ hinv1 (by simp [hq])
        simpa [grantRanks, hq] using this
      | cons hd tlq =>
        have hres : m.release_request
            = ({ m with access_queue := tlq, locked := true, current_owner := some hd },
               [⟨some hd, m.data⟩]) := by
          simp [HeimdallrDaemonMutex.release_request, HeimdallrDaemonMutex.grant_next_lock,
            HeimdallrDaemonMutex.send_data, hl, hq]
        rw [hres]
        dsimp only
        rw [grantRanks_append]
        have hinv1 : LockInv
            { m with access_queue := tlq, locked := true, current_owner := some hd } :=
          ⟨rfl, fun _ => rfl⟩
        have hlen1 : tlq.length ≤ n := by
          rw [hq] at hlen
          simpa using hlen
        have := ih _ hinv1 hlen1
        rw [this]
        simp [grantRanks, hq]

/-- C2: from a fresh mutex, any sequence of `access_request` / plain
`release_request` operations grants locks exactly in the FIFO arrival order
of the requests (the grants so far are an initial segment of the arrival
order), and appending one release per request grants every enqueued
requester, yielding exactly the full arrival order. -/
theorem c2_mutex_fifo (name : String) (size : Nat) (d0 : Bytes) (ops : List MutexOp)
    (h : ∀ op ∈ ops, op.isLockOp = true) :
    grantRanks (runOps (HeimdallrDaemonMutex.new name size d0) ops).2
      = (arrivals ops).take
          (grantRanks (runOps (HeimdallrDaemonMutex.new name size d0) ops).2).length ∧
    grantRanks (runOps (HeimdallrDaemonMutex.new name size d0)
        (ops ++ List.replicate (arrivals ops).length MutexOp.release)).2
      = arrivals ops := by
  have hinv : LockInv (HeimdallrDaemonMutex.new name size d0) :=
    ⟨rfl, fun hne => absurd rfl hne⟩
  obtain ⟨hinv1, heq1⟩ := runOps_lock_spec ops _ h hinv
  have heq1' : grantRanks (runOps (HeimdallrDaemonMutex.new name size d0) ops).2
      ++ (runOps (HeimdallrDaemonMutex.new name size d0) ops).1.access_queue
      = arrivals ops := by
    simpa [HeimdallrDaemonMutex.new] using heq1
  constructor
  · rw [← heq1']
    exact (List.take_left _ _).symm
  · rw [runOps_append]
    dsimp only
    rw [grantRanks_append]
    have hlen : (runOps (HeimdallrDaemonMutex.new name size d0) ops).1.access_queue.length
        ≤ (arrivals ops).length := by
      rw [← heq1']
      simp
    rw [runOps_releases ((arrivals ops).length) _ hinv1 hlen]
    exact heq1'

/-- Witness for C2 at a concrete request sequence. -/
theorem c2_mutex_fifo_witness :
    (∀ op ∈ ([MutexOp.access 0, MutexOp.access 1, MutexOp.release] : List MutexOp),
      op.isLockOp = true) ∧
    (grantRanks (runOps (HeimdallrDaemonMutex.new "m" 2 [])
        [MutexOp.access 0, MutexOp.access 1, MutexOp.release]).2
      = (arrivals [MutexOp.access 0, MutexOp.access 1, MutexOp.release]).take
          (grantRanks (runOps (HeimdallrDaemonMutex.new "m" 2 [])
            [MutexOp.access 0, MutexOp.access 1, MutexOp.release]).2).length ∧
    grantRanks (runOps (HeimdallrDaemonMutex.new "m" 2 [])
        ([MutexOp.access 0, MutexOp.access 1, MutexOp.release]
          ++ List.replicate
              (arrivals [MutexOp.access 0, MutexOp.access 1, MutexOp.release]).length
              MutexOp.release)).2
      = arrivals [MutexOp.access 0, MutexOp.access 1, MutexOp.release]) :=
  ⟨by decide, c2_mutex_fifo "m" 2 []
    [MutexOp.access 0, MutexOp.access 1, MutexOp.release] (by decide)⟩

/-- Runs of register/access/release operations in which a rank only requests
the lock while it is neither the owner nor already queued. -/
inductive SafeOps : HeimdallrDaemonMutex → List MutexOp → Prop where
  | nil (m : HeimdallrDaemonMutex) : SafeOps m []
  | register (m : HeimdallrDaemonMutex) (id s : Nat) (ops : List MutexOp) :
      SafeOps (applyOp m (.register id s)).1 ops → SafeOps m (.register id s :: ops)
  | access (m : HeimdallrDaemonMutex) (r : Nat) (ops : List MutexOp) :
      r ∉ m.access_queue → m.current_owner ≠ some r →
      SafeOps (applyOp m (.access r)).1 ops → SafeOps m (.access r :: ops)
  | release (m : HeimdallrDaemonMutex) (ops : List MutexOp) :
      SafeOps (applyOp m .release).1 ops → SafeOps m (.release :: ops)

/-- Exclusion invariant: lock fields well-formed, queue duplicate-free, and
the owner never sits in the queue. -/
def SafeInv (m : HeimdallrDaemonMutex) : Prop :=
  LockInv m ∧ m.access_queue.Nodup ∧
  ∀ r : Nat, m.current_owner = some r → r ∉ m.access_queue

/-- Method `register_client` leaves the lock fields untouched. -/
theorem safeInv_register (m : HeimdallrDaemonMutex) (id s : Nat) (h : SafeInv m) :
    SafeInv (applyOp m (.register id s)).1 := by
  obtain ⟨⟨h1, h2⟩, h3, h4⟩ := h
  exact ⟨⟨h1, h2⟩, h3, h4⟩

/-- A guarded `access_request` preserves the exclusion invariant. -/
theorem safeInv_access (m : HeimdallrDaemonMutex) (r : Nat)
    (hq : r ∉ m.access_queue) (ho : m.current_owner ≠ some r) (h : SafeInv m) :
    SafeInv (applyOp m (.access r)).1 := by
  obtain ⟨hlock, hnodup, howner⟩ := h
  cases hl : m.locked with
  | true =>
    have hres : m.access_request r
        = ({ m with access_queue := m.access_queue ++ [r] }, []) := by
      simp [HeimdallrDaemonMutex.access_request, HeimdallrDaemonMutex.grant_next_lock, hl]
    show SafeInv (m.access_request r).1
    rw [hres]
    refine ⟨⟨hl ▸ hlock.1, fun _ => hl⟩, ?_, ?_⟩
    · simp [List.nodup_append, hnodup, hq]
    · intro r' hr'
      have hr'm : m.current_owner = some r' := hr'
      have h1 := howner r' hr'm
      have h2 : r' ≠ r := fun he => ho (he ▸ hr'm)
      simp [h1, h2]
  | false =>
    have hqe : m.access_queue = [] := by
      by_contra hne
      rw [hlock.2 hne] at hl
      exact Bool.noConfusion hl
    have hres : m.access_request r
        = ({ m with access_queue := [], locked := true, current_owner := some r },
           [⟨some r, m.data⟩]) := by
      simp [HeimdallrDaemonMutex.access_request, HeimdallrDaemonMutex.grant_next_lock,
        HeimdallrDaemonMutex.send_data, hl, hqe]
    show SafeInv (m.access_request r).1
    rw [hres]
    exact ⟨⟨rfl, fun _ => rfl⟩, List.nodup_nil, fun r' _ => List.not_mem_nil r'⟩

/-- Method `release_request` preserves the exclusion invariant. -/
theorem safeInv_release (m : HeimdallrDaemonMutex) (h : SafeInv m) :
    SafeInv (applyOp m .release).1 := by
  obtain ⟨hlock, hnodup, howner⟩ := h
  cases hl : m.locked with
  | false =>
    have hres : m.release_request = (m, []) := by
      simp [HeimdallrDaemonMutex.release_request, hl]
    show SafeInv (m.release_request).1
    rw [hres]
    exact ⟨hlock, hnodup, howner⟩
  | true =>
    cases hq : m.access_queue with
    | nil =>
      have hres : m.release_request
          = ({ m with locked := false, current_owner := none }, []) := by
        simp [HeimdallrDaemonMutex.release_request, HeimdallrDaemonMutex.grant_next_lock,
          hl, hq]
      show SafeInv (m.release_request).1
      rw [hres]
      refine ⟨⟨rfl, fun hne => absurd hq hne⟩, hq ▸ hnodup, ?_⟩
      intro r hr
      cases hr
    | cons hd tlq =>
      have hres : m.release_request
          = ({ m with access_queue := tlq, locked := true, current_owner := some hd },
             [⟨some hd, m.data⟩]) := by
        simp [HeimdallrDaemonMutex.release_request, HeimdallrDaemonMutex.grant_next_lock,
          HeimdallrDaemonMutex.send_data, hl, hq]
      show SafeInv (m.release_request).1
      rw [hres]
      have hnodup' : (hd :: tlq).Nodup := hq ▸ hnodup
      refine ⟨⟨rfl, fun _ => rfl⟩, (List.nodup_cons.mp hnodup').2, ?_⟩
      intro r hr
      have hrd : r = hd := by
        injection hr with hr'
        exact hr'.symm
      subst hrd
      exact (List.nodup_cons.mp hnodup').1

/-- The exclusion invariant holds at the end of every safe run. -/
theorem safeOps_inv (m : HeimdallrDaemonMutex) (ops : List MutexOp)
    (hsafe : SafeOps m ops) (h : SafeInv m) : SafeInv (runOps m ops).1 := by
  induction hsafe with
  | nil m => exact h
  | register m id s ops hs ih =>
    rw [runOps_cons]
    exact ih (safeInv_register m id s h)
  | access m r ops hq ho hs ih =>
    rw [runOps_cons]
    exact ih (safeInv_access m r hq ho h)
  | release m ops hs ih =>
    rw [runOps_cons]
    exact ih (safeInv_release m h)

/-- C4 (amended): in every state reached from a fresh mutex by a sequence of
register/access/release operations in which a rank never requests the lock
while it is the current owner or already queued, the owner rank (when
present) does not occur in `access_queue`; `current_owner` being an `Option`
makes the owner unique by construction. -/
theorem c4_owner_not_in_queue (name : String) (size : Nat) (d0 : Bytes)
    (ops : List MutexOp) (h : SafeOps (HeimdallrDaemonMutex.new name size d0) ops) :
    ∀ r : Nat,
      (runOps (HeimdallrDaemonMutex.new name size d0) ops).1.current_owner = some r →
      r ∉ (runOps (HeimdallrDaemonMutex.new name size d0) ops).1.access_queue := by
  have hinv : SafeInv (HeimdallrDaemonMutex.new name size d0) :=
    ⟨⟨rfl, fun hne => absurd rfl hne⟩, List.nodup_nil, fun r hr => by cases hr⟩
  exact (safeOps_inv _ _ h hinv).2.2

/-- Witness for C4 at a concrete safe run. -/
theorem c4_owner_not_in_queue_witness :
    (runOps (HeimdallrDaemonMutex.new "m" 2 [])
      [MutexOp.access 0, MutexOp.release, MutexOp.access 1]).1.current_owner = some 1 ∧
    1 ∉ (runOps (HeimdallrDaemonMutex.new "m" 2 [])
      [MutexOp.access 0, MutexOp.release, MutexOp.access 1]).1.access_queue := by
  have hs : SafeOps (HeimdallrDaemonMutex.new "m" 2 [])
      [MutexOp.access 0, MutexOp.release, MutexOp.access 1] := by
    refine SafeOps.access _ _ _ (by decide) (by decide) ?_
    refine SafeOps.release _ _ ?_
    refine SafeOps.access _ _ _ (by decide) (by decide) ?_
    exact SafeOps.nil _
  exact ⟨by decide, c4_owner_not_in_queue "m" 2 [] _ hs 1 (by decide)⟩

/-- C4 as frozen fails on unrestricted sequences: a rank that requests again
while it already holds the lock is reachable (two `access_request 0` in a
row), and then the owner 0 also occurs in `access_queue`. -/
theorem c4_counterexample_owner_in_queue :
    (runOps (HeimdallrDaemonMutex.new "m" 1 [])
      [MutexOp.access 0, MutexOp.access 0]).1.current_owner = some 0 ∧
    0 ∈ (runOps (HeimdallrDaemonMutex.new "m" 1 [])
      [MutexOp.access 0, MutexOp.access 0]).1.access_queue := by
  constructor
  · decide
  · decide

/-- A registration packet appends the stream and the advertised address,
and seals the job size from the first packet only. -/
theorem regStep_registration (st : RegState) (s : TcpStream) (p : ClientRegistrationPkt) :
    (regStep st (.ok s (.clientRegistration p))).clients = st.clients ++ [s] ∧
    (regStep st (.ok s (.clientRegistration p))).client_listeners
      = st.client_listeners ++ [p.listener_addr] ∧
    (st.job_name.isEmpty = true →
      (regStep st (.ok s (.clientRegistration p))).job_size = p.size) ∧
    (st.job_name.isEmpty = false →
      (regStep st (.ok s (.clientRegistration p))).job_size = st.job_size) := by
  unfold regStep
  by_cases hn : st.job_name.isEmpty <;> simp [hn]

/-- Unfolding lemma for `regLoop` on a cons cell. -/
theorem regLoop_cons (st : RegState) (ev : IncomingEvent) (evs : List IncomingEvent) :
    regLoop st (ev :: evs)
      = if (regStep st ev).clients.length = (regStep st ev).job_size
        then regStep st ev
        else regLoop (regStep st ev) evs := rfl

/-- The registration loop, fed exactly the remaining registrations for a job
of size `N`, appends all streams and advertised addresses in arrival order. -/
theorem regLoop_spec (N : Nat) :
    ∀ (regs : List (TcpStream × ClientRegistrationPkt)) (st : RegState),
      (∀ p ∈ regs, (Prod.snd p).size = N) →
      (st.job_name.isEmpty = true ∨ st.job_size = N) →
      st.clients.length + regs.length = N →
      (regLoop st (regs.map fun p => IncomingEvent.ok p.1 (.clientRegistration p.2))).clients
        = st.clients ++ regs.map Prod.fst ∧
      (regLoop st
          (regs.map fun p => IncomingEvent.ok p.1 (.clientRegistration p.2))).client_listeners
        = st.client_listeners ++ regs.map (fun p => p.2.listener_addr) := by
  intro regs
  induction regs with
  | nil =>
    intro st _ _ _
    simp [regLoop]
  | cons r rest ih =>
    intro st hsz hname hlen
    obtain ⟨s, p⟩ := r
    obtain ⟨hc, hl, hjs1, hjs2⟩ := regStep_registration st s p
    have hsz' : (regStep st (.ok s (.clientRegistration p))).job_size = N := by
      by_cases he : st.job_name.isEmpty
      · rw [hjs1 he]
        exact hsz (s, p) (List.mem_cons_self _ _)
      · have he' : st.job_name.isEmpty = false := by
          cases hb : st.job_name.isEmpty
          · rfl
          · exact absurd hb he
        rw [hjs2 he']
        rcases hname with hn | hn
        · exact absurd hn he
        · exact hn
    have hclen : (regStep st (.ok s (.clientRegistration p))).clients.length
        = st.clients.length + 1 := by
      rw [hc]
      simp
    rw [List.map_cons, regLoop_cons]
    cases rest with
    | nil =>
      have hcond : (regStep st (.ok s (.clientRegistration p))).clients.length
          = (regStep st (.ok s (.clientRegistration p))).job_size := by
        rw [hclen, hsz']
        simpa using hlen
      rw [if_pos hcond]
      refine ⟨?_, ?_⟩
      · rw [hc]
        simp
      · rw [hl]
        simp
    | cons r2 rest2 =>
      have hcond : ¬((regStep st (.ok s (.clientRegistration p))).clients.length
          = (regStep st (.ok s (.clientRegistration p))).job_size) := by
        rw [hclen, hsz']
        simp only [List.length_cons] at hlen
        omega
      rw [if_neg hcond]
      have hsz2 : ∀ q ∈ r2 :: rest2, (Prod.snd q).size = N :=
        fun q hq => hsz q (List.mem_cons_of_mem _ hq)
      have hlen2 : (regStep st (.ok s (.clientRegistration p))).clients.length
          + (r2 :: rest2).length = N := by
        rw [hclen]
        simp only [List.length_cons] at hlen ⊢
        omega
      obtain ⟨ihc, ihl⟩ := ih (regStep st (.ok s (.clientRegistration p)))
        hsz2 (Or.inr hsz') hlen2
      refine ⟨?_, ?_⟩
      · rw [ihc, hc]
        simp
      · rw [ihl, hl]
        simp

/-- Function `replyLoop` produces one reply per remaining client. -/
theorem replyLoop_length :
    ∀ (cs : List TcpStream) (i : Nat) (ls : List Addr),
      (replyLoop cs i ls).length = cs.length := by
  intro cs
  induction cs with
  | nil => intro i ls; rfl
  | cons c cs ih =>
    intro i ls
    simp [replyLoop, ih]

/-- The k-th reply of `replyLoop` goes to the k-th remaining client, with
rank `i + k` and the shared listener list. -/
theorem replyLoop_getD :
    ∀ (cs : List TcpStream) (i : Nat) (ls : List Addr) (k : Nat), k < cs.length →
      (replyLoop cs i ls).getD k (0, ⟨0, []⟩) = (cs.getD k 0, ⟨i + k, ls⟩) := by
  intro cs
  induction cs with
  | nil =>
    intro i ls k hk
    simp at hk
  | cons c cs ih =>
    intro i ls k hk
    cases k with
    | zero => simp [replyLoop, List.getD]
    | succ k =>
      have hk' : k < cs.length := by
        simpa using hk
      have harith : i + 1 + k = i + (k + 1) := by omega
      have := ih (i + 1) ls k hk'
      rw [harith] at this
      simpa [replyLoop, List.getD] using this

/-- C1: when the registration loop accepts exactly `N` `ClientRegistration`
packets (each declaring size `N`), the collected listener list is the
advertised addresses in arrival order, and the k-th reply carries rank `k`
together with that full length-`N` list, sent to the k-th client to
register. -/
theorem c1_registration_ranks_and_listeners
    (regs : List (TcpStream × ClientRegistrationPkt))
    (hsz : ∀ p ∈ regs, (Prod.snd p).size = regs.length) :
    (regLoop regInit
        (regs.map fun p => IncomingEvent.ok p.1 (.clientRegistration p.2))).client_listeners
      = regs.map (fun p => p.2.listener_addr) ∧
    (sendReplies (regLoop regInit
        (regs.map fun p => IncomingEvent.ok p.1 (.clientRegistration p.2)))).length
      = regs.length ∧
    ∀ k : Nat, k < regs.length →
      (sendReplies (regLoop regInit
          (regs.map fun p => IncomingEvent.ok p.1 (.clientRegistration p.2)))).getD k (0, ⟨0, []⟩)
        = ((regs.map Prod.fst).getD k 0, ⟨k, regs.map (fun p => p.2.listener_addr)⟩) := by
  obtain ⟨hc, hl⟩ := regLoop_spec regs.length regs regInit hsz (Or.inl rfl)
    (by simp [regInit])
  have hc' : (regLoop regInit
      (regs.map fun p => IncomingEvent.ok p.1 (.clientRegistration p.2))).clients
      = regs.map Prod.fst := by
    rw [hc]
    simp [regInit]
  have hl' : (regLoop regInit
      (regs.map fun p => IncomingEvent.ok p.1 (.clientRegistration p.2))).client_listeners
      = regs.map (fun p => p.2.listener_addr) := by
    rw [hl]
    simp [regInit]
  refine ⟨hl', ?_, ?_⟩
  · unfold sendReplies
    rw [hc', replyLoop_length]
    simp
  · intro k hk
    unfold sendReplies
    rw [hc', hl']
    have hk' : k < (regs.map Prod.fst).length := by
      simpa using hk
    have := replyLoop_getD (regs.map Prod.fst) 0 (regs.map fun p => p.2.listener_addr) k hk'
    rw [Nat.zero_add] at this
    exact this

/-- Witness for C1 with two concrete registrations of a size-2 job. -/
theorem c1_registration_ranks_and_listeners_witness :
    (regLoop regInit
        ([((10 : TcpStream), (⟨"j", 2, 100⟩ : ClientRegistrationPkt)),
          (11, ⟨"j", 2, 101⟩)].map
          fun p => IncomingEvent.ok p.1 (.clientRegistration p.2))).client_listeners
      = [((10 : TcpStream), (⟨"j", 2, 100⟩ : ClientRegistrationPkt)),
          (11, ⟨"j", 2, 101⟩)].map (fun p => p.2.listener_addr) ∧
    (sendReplies (regLoop regInit
        ([((10 : TcpStream), (⟨"j", 2, 100⟩ : ClientRegistrationPkt)),
          (11, ⟨"j", 2, 101⟩)].map
          fun p => IncomingEvent.ok p.1 (.clientRegistration p.2)))).length
      = [((10 : TcpStream), (⟨"j", 2, 100⟩ : ClientRegistrationPkt)),
          (11, ⟨"j", 2, 101⟩)].length ∧
    ∀ k : Nat, k < [((10 : TcpStream), (⟨"j", 2, 100⟩ : ClientRegistrationPkt)),
          (11, ⟨"j", 2, 101⟩)].length →
      (sendReplies (regLoop regInit
          ([((10 : TcpStream), (⟨"j", 2, 100⟩ : ClientRegistrationPkt)),
            (11, ⟨"j", 2, 101⟩)].map
            fun p => IncomingEvent.ok p.1 (.clientRegistration p.2)))).getD k (0, ⟨0, []⟩)
        = (([((10 : TcpStream), (⟨"j", 2, 100⟩ : ClientRegistrationPkt)),
            (11, ⟨"j", 2, 101⟩)].map Prod.fst).getD k 0,
           ⟨k, [((10 : TcpStream), (⟨"j", 2, 100⟩ : ClientRegistrationPkt)),
            (11, ⟨"j", 2, 101⟩)].map (fun p => p.2.listener_addr)⟩) :=
  c1_registration_ranks_and_listeners
    [((10 : TcpStream), (⟨"j", 2, 100⟩ : ClientRegistrationPkt)), (11, ⟨"j", 2, 101⟩)]
    (by decide)

/-- C7 as frozen fails when a flag is present but its value is missing: on
`["prog", "-p"]` the partition is missing, yet `init` returns an error to
the caller instead of printing a diagnostic and exiting with status 1. -/
theorem c7_counterexample_missing_flag_value :
    clientInitCheck ["prog", "-p"] = InitOutcome.argErr "Error in partition argument." ∧
    clientInitCheck ["prog", "-p"] ≠ InitOutcome.exit1 := by
  constructor
  · decide
  · decide

/-- C7 (amended): when the flag loop completes normally, `init` exits with
status 1 exactly when partition is missing/empty, node is missing/empty, or
jobs is zero/absent; otherwise the check passes and `init` proceeds with the
parsed arguments. -/
theorem c7_required_args_check (argv : List String) (st : ParsedClientArgs)
    (h : parseClientArgs argv = ParseOutcome.ok st) :
    ((st.partition = "" ∨ st.node = "" ∨ st.size = 0) →
        clientInitCheck argv = InitOutcome.exit1) ∧
    (¬(st.partition = "" ∨ st.node = "" ∨ st.size = 0) →
        clientInitCheck argv = InitOutcome.proceeds st) := by
  have hcond : (st.partition.isEmpty || st.node.isEmpty || (st.size == 0)) = true
      ↔ (st.partition = "" ∨ st.node = "" ∨ st.size = 0) := by
    simp [String.isEmpty_iff, or_assoc]
  constructor
  · intro hcase
    unfold clientInitCheck
    rw [h]
    dsimp only
    rw [if_pos (hcond.mpr hcase)]
  · intro hcase
    unfold clientInitCheck
    rw [h]
    dsimp only
    rw [if_neg (fun hcb => hcase (hcond.mp hcb))]

/-- Witness for C7 on a fully supplied argument list. -/
theorem c7_required_args_check_witness :
    parseClientArgs ["prog", "-p", "pa", "-n", "no", "-j", "2"]
      = ParseOutcome.ok ⟨"prog", "pa", 2, "no", [], ""⟩ ∧
    clientInitCheck ["prog", "-p", "pa", "-n", "no", "-j", "2"]
      = InitOutcome.proceeds ⟨"prog", "pa", 2, "no", [], ""⟩ :=
  ⟨by decide,
    (c7_required_args_check ["prog", "-p", "pa", "-n", "no", "-j", "2"]
      ⟨"prog", "pa", 2, "no", [], ""⟩ (by decide)).2 (by decide)⟩

/-- C9: after `DaemonBarrier::reset`, every stream slot is `None`, `finished`
is false, `size` is unchanged, and the state equals a freshly constructed
barrier of the same size. -/
theorem c9_barrier_reset_is_fresh (b : DaemonBarrier) :
    b.reset.streams = List.replicate b.size none ∧
    b.reset.finished = false ∧
    b.reset.size = b.size ∧
    b.reset = DaemonBarrier.new b.size :=
  ⟨rfl, rfl, rfl, rfl⟩

/-- C10: handling `MutexWriteAndRelease` on a mutex that is not locked still
overwrites the stored data with the packet's data; the release itself is
rejected with only a logged diagnostic, so the state change is exactly the
data overwrite and no grant is emitted. -/
theorem c10_write_and_release_not_atomic (m : HeimdallrDaemonMutex) (d : Bytes)
    (h : m.locked = false) :
    m.write_and_release d = ({ m with data := d }, []) := by
  simp [HeimdallrDaemonMutex.write_and_release, HeimdallrDaemonMutex.release_request, h]

/-- Witness for C10 at a concrete unlocked mutex. -/
theorem c10_write_and_release_not_atomic_witness :
    (HeimdallrDaemonMutex.new "m" 2 [1, 2]).locked = false ∧
    (HeimdallrDaemonMutex.new "m" 2 [1, 2]).write_and_release [9] =
      ({ HeimdallrDaemonMutex.new "m" 2 [1, 2] with data := [9] }, []) :=
  ⟨rfl, c10_write_and_release_not_atomic (HeimdallrDaemonMutex.new "m" 2 [1, 2]) [9] rfl⟩

/-- C6: the join loop of `run` calls `process::exit(0)` inside the loop body,
so with two handler threads the process exits after joining only the first
one — the coordinator does not wait for all handler threads. -/
theorem c6_exit_inside_join_loop :
    joinThreads [10, 11] = DaemonExit.exited [10] 0 ∧ [10] ≠ [10, 11] := by
  refine ⟨rfl, ?_⟩
  decide

/-- C8: with `XDG_CONFIG_HOME=/xdg` and `HOME=/home/user` the coordinator
writes its descriptor under `/xdg` while the client reads under
`/home/user/.config`, so the two paths differ; they coincide only when
`XDG_CONFIG_HOME` is unset (the claim asserts both sides derive the base
directory the same way). -/
theorem c8_config_paths_diverge_under_xdg :
    daemonPartitionFilePath (some "/xdg") "/home/user" "p" "n" = "/xdg/heimdallr/p/n" ∧
    clientConfigFilePath "/home/user" "p" "n" = "/home/user/.config/heimdallr/p/n" ∧
    daemonPartitionFilePath (some "/xdg") "/home/user" "p" "n" ≠
      clientConfigFilePath "/home/user" "p" "n" ∧
    daemonPartitionFilePath none "/home/user" "p" "n" =
      clientConfigFilePath "/home/user" "p" "n" := by
  refine ⟨rfl, rfl, ?_, rfl⟩
  decide

end Heimdallr
